import Mathlib

/-!
# Verification of `pagmo::xnes` (`include/pagmo/algorithms/xnes.hpp`)

Shallow embedding of the xNES (Exponential Natural Evolution Strategies)
algorithm from pagmo2.  C++ `double` values are modelled as real numbers;
Eigen dynamic vectors and matrices are modelled as total functions
`Nat → Real` / `Nat → Nat → Real` together with an explicit size field
(entries at indices at or beyond the size are irrelevant junk).  The
stochastic draws of the algorithm (standard-normal noise, uniform repair
draws) are passed in as oracles, and Eigen's dense matrix exponential
`MatrixBase::exp()` is passed in as an abstract function, exactly as the
design treats the linear-algebra primitives as external collaborators.
Only deterministic problems are modelled (`prob.is_stochastic()` false:
the per-generation reseeding branch of the source is not taken).
-/

namespace Xnes

noncomputable section

/-! ## Learning-rate derivation (`xnes::evolve`, lines 224-235)

The C++ source reads

```
if (eta_mu = -1) { eta_mu = 1.; }
double common_default = 0.6 * (3. + std::log(N)) / (N * std::sqrt(N));
if (eta_sigma = -1) { eta_sigma = common_default; }
if (eta_b = -1) { eta_b = common_default; }
```

Each condition is an *assignment*, not a comparison: `eta_mu = -1` stores
-1 into the local and yields -1, which is nonzero hence truthy, so every
branch is always taken and the constructed value of each learning rate is
discarded on every evolve call. -/

/-- Effective `eta_mu` used by `evolve`: always `1`, whatever was
constructed, because of the `if (eta_mu = -1)` assignment. -/
def effEtaMu (_m_eta_mu : ℝ) : ℝ := 1

/-- `common_default = 0.6 * (3. + std::log(N)) / (N * std::sqrt(N))`. -/
def commonDefault (N : ℝ) : ℝ := 0.6 * (3 + Real.log N) / (N * Real.sqrt N)

/-- Effective `eta_sigma` used by `evolve`: always `common_default`,
whatever was constructed, because of the `if (eta_sigma = -1)` assignment. -/
def effEtaSigma (_m_eta_sigma : ℝ) (N : ℝ) : ℝ := commonDefault N

/-- Effective `eta_b` used by `evolve`: always `common_default`,
whatever was constructed, because of the `if (eta_b = -1)` assignment. -/
def effEtaB (_m_eta_b : ℝ) (N : ℝ) : ℝ := commonDefault N

/-! ## Utility weights (`xnes::evolve`, lines 236-247) -/

/-- Raw utility weight `u[i] = std::max(0., std::log(lam / 2. + 1.) - std::log(i + 1))`. -/
def rawWeight (lam i : ℕ) : ℝ :=
  max 0 (Real.log ((lam : ℝ) / 2 + 1) - Real.log ((i : ℝ) + 1))

/-- `sum` of the raw weights (the `sum += u[i]` accumulation loop). -/
def weightSum (lam : ℕ) : ℝ :=
  ∑ i in Finset.range lam, rawWeight lam i

/-- Normalised utility `u[i] = u[i] / sum - 1. / lam`. -/
def utility (lam i : ℕ) : ℝ :=
  rawWeight lam i / weightSum lam - 1 / (lam : ℝ)

/-! ## Distribution state (the mutable members `sigma`, `mean`, `A`) -/

/-- The algorithm's "memory" data members: `sigma`, `mean` (an Eigen
dynamic vector, whose current size we record explicitly) and `A` (a
square matrix of the same size). -/
structure DistState where
  meanSize : ℕ
  sigma : ℝ
  mean : ℕ → ℝ
  A : ℕ → ℕ → ℝ

/-- State installed by the constructor (lines 162-165):
`sigma = m_sigma0; mean = Eigen::VectorXd::Zero(1); A = Eigen::MatrixXd::Identity(1, 1);`. -/
def initState (m_sigma0 : ℝ) : DistState :=
  { meanSize := 1
    sigma := m_sigma0
    mean := fun _ => 0
    A := fun i j => if i = j then 1 else 0 }

/-- Immutable configuration of an `xnes` instance (the constructor
arguments; the seed and the RNG are replaced by the draw oracles). -/
structure XnesConfig where
  m_gen : ℕ
  m_eta_mu : ℝ
  m_eta_sigma : ℝ
  m_eta_b : ℝ
  m_sigma0 : ℝ
  m_ftol : ℝ
  m_xtol : ℝ
  m_memory : Bool
  m_verbosity : ℕ

/-- Reinitialisation of the memory members at the start of `evolve`
(lines 248-267): if `(mean.size() != dim) || (m_memory == false)` the
state is rebuilt (`sigma` from `m_sigma0` with sentinel `-1` meaning `1`,
`A` the identity with the first `dim` diagonal entries overwritten by
`max(ub[j] - lb[j], 1e-6) * sigma`, `mean` copied from the population's
best individual); otherwise the previous state is kept. -/
def initDist (dim : ℕ) (cfg : XnesConfig) (lbv ubv : ℕ → ℝ) (bestx : ℕ → ℝ)
    (st : DistState) : DistState :=
  if st.meanSize ≠ dim ∨ cfg.m_memory = false then
    let s : ℝ := if cfg.m_sigma0 = -1 then 1 else cfg.m_sigma0
    let A0 : ℕ → ℕ → ℝ := fun i j => if i = j then 1 else 0
    { meanSize := dim
      sigma := s
      mean := bestx
      A := fun i j => if i = j ∧ i < dim then max (ubv i - lbv i) 1e-6 * s else A0 i j }
  else st

/-! ## The external collaborators: problem and population

Only `xnes.hpp` is part of the source under verification; the population
and problem containers are external collaborators specified at their
interface. -/

/-- Modelled from the spec: the problem abstraction, "a problem exposing
dimensionality, box bounds (two vectors of length D), objective count,
constraint count ... and a cumulative evaluation counter".  The objective
is a single scalar fitness function (deterministic problems only). -/
structure Problem where
  nx : ℕ
  nc : ℕ
  nf : ℕ
  lbv : ℕ → ℝ
  ubv : ℕ → ℝ
  fit : (ℕ → ℝ) → ℝ

/-- Modelled from the spec: "a population exposing size, per-individual
decision and fitness vectors, best/worst index queries, and a mutator to
overwrite an individual's decision vector (which triggers re-evaluation)".
Each entry is a pair of a decision vector and its fitness value. -/
structure Population where
  entries : List ((ℕ → ℝ) × ℝ)

/-- `pop.size()`. -/
def Population.size (p : Population) : ℕ := p.entries.length

/-- `pop.get_x()[i]`. -/
def getX (p : Population) (i : ℕ) : ℕ → ℝ := (p.entries.getD i (fun _ => 0, 0)).1

/-- `pop.get_f()[i][0]` (single-objective fitness of individual `i`). -/
def getF (p : Population) (i : ℕ) : ℝ := (p.entries.getD i (fun _ => 0, 0)).2

/-- Modelled from the spec: `pop.best_idx()`, the best-index query of the
population collaborator — index of the lowest fitness (minimisation),
earliest index on ties. -/
def bestIdx (p : Population) : ℕ :=
  (List.range p.size).foldl (fun b i => if getF p i < getF p b then i else b) 0

/-- Modelled from the spec: `pop.worst_idx()` — index of the highest
fitness, earliest index on ties. -/
def worstIdx (p : Population) : ℕ :=
  (List.range p.size).foldl (fun b i => if getF p b < getF p i then i else b) 0

/-! ## The generation loop (`xnes::evolve`, lines 284-378) -/

/-- Everything the loop body reads but never writes: dimension, population
size, bounds, fitness, tolerances, verbosity, effective learning rates,
utility weights, the matrix-exponential primitive and the two random
oracles (`zdraw gen i j` is the standard-normal draw for coordinate `j` of
noise vector `i` in generation `gen`; `udraw gen i j` the uniform draw in
`[0,1)` used if coordinate `j` of candidate `i` needs repair). -/
structure LoopCtx where
  d : ℕ
  lam : ℕ
  lbv : ℕ → ℝ
  ubv : ℕ → ℝ
  fit : (ℕ → ℝ) → ℝ
  m_xtol : ℝ
  m_ftol : ℝ
  verbosity : ℕ
  eta_mu : ℝ
  eta_sigma : ℝ
  eta_b : ℝ
  u : ℕ → ℝ
  mexp : (ℕ → ℕ → ℝ) → (ℕ → ℕ → ℝ)
  zdraw : ℕ → ℕ → ℕ → ℝ
  udraw : ℕ → ℕ → ℕ → ℝ

/-- State carried from one generation to the next: the generation counter,
the population, the distribution memory, the log and the evaluation count
of this call (`prob.get_fevals() - fevals0`). -/
structure LoopState where
  gen : ℕ
  pop : Population
  ds : DistState
  log : List (ℕ × ℕ × ℝ × ℝ × ℝ × ℝ)
  fe : ℕ

/-- Matrix/vector product of the leading `d`-block: `(A * v)(i)`. -/
def mulVec (d : ℕ) (A : ℕ → ℕ → ℝ) (v : ℕ → ℝ) : ℕ → ℝ :=
  fun i => ∑ k in Finset.range d, A i k * v k

/-- `x[i] = mean + A * z[i]` (line 298). -/
def sampleX (ctx : LoopCtx) (s : LoopState) (i : ℕ) : ℕ → ℝ :=
  fun j => s.ds.mean j + mulVec ctx.d s.ds.A (fun k => ctx.zdraw s.gen i k) j

/-- Bound repair (lines 300-306): each coordinate of `x` outside
`[lb, ub]` is overwritten by `lb[j] + r * (ub[j] - lb[j])` where `r` is
the uniform draw in `[0,1)`; in-bounds coordinates are untouched. -/
def repaired (lbv ubv udr : ℕ → ℝ) (x : ℕ → ℝ) : ℕ → ℝ :=
  fun j => if x j < lbv j ∨ ubv j < x j then lbv j + udr j * (ubv j - lbv j) else x j

/-- The repaired candidate of individual `i` in the current generation. -/
def repairedX (ctx : LoopCtx) (s : LoopState) (i : ℕ) : ℕ → ℝ :=
  repaired ctx.lbv ctx.ubv (ctx.udraw s.gen i) (sampleX ctx s i)

/-- The population after the sampling loop (lines 292-311): each of the
`lam` individuals is overwritten via `pop.set_x(i, dumb)` with its
repaired candidate, which re-evaluates its fitness. -/
def samplePop (ctx : LoopCtx) (s : LoopState) : Population :=
  ⟨(List.range ctx.lam).map fun i => (repairedX ctx s i, ctx.fit (repairedX ctx s i))⟩

/-- `(A * z[0]).norm()` (lines 316 and 338): Euclidean norm of the
transform applied to the current generation's first noise vector. -/
def dxNorm (ctx : LoopCtx) (s : LoopState) : ℝ :=
  Real.sqrt (∑ j in Finset.range ctx.d, mulVec ctx.d s.ds.A (fun k => ctx.zdraw s.gen 0 k) j ^ 2)

/-- `std::abs(pop.get_f()[idx_b][0] - pop.get_f()[idx_w][0])` (line 325). -/
def deltaF (p : Population) : ℝ := |getF p (bestIdx p) - getF p (worstIdx p)|

/-- Index permutation after `std::sort` of `s_idx` by ascending fitness
(lines 356-361); the comparator is the strict `<` of the source, so the
order of equal-fitness individuals is unspecified in C++ and fixed here by
the stable merge sort. -/
def sortIdx (p : Population) (lam : ℕ) : List ℕ :=
  (List.range lam).mergeSort fun a b => decide (getF p a < getF p b)

/-- The accumulation pattern of lines 364-371: initialise with the
`i = 0` term, then the loop `for (i = 1u; i < lam; ++i)` adds the terms
`i = 1, ..., lam - 1` (`List.range' 1 (lam - 1) = [1, ..., lam-1]`). -/
def accum (g : ℕ → ℝ) (lam : ℕ) : ℝ :=
  (List.range' 1 (lam - 1)).foldl (fun a i => a + g i) (g 0)

/-- The natural-gradient update (lines 362-377), transcribed with the
source's accumulation loops for `d_center` and `cov_grad`. -/
def updateDist (d lam : ℕ) (eta_mu eta_sigma eta_b : ℝ)
    (mexp : (ℕ → ℕ → ℝ) → (ℕ → ℕ → ℝ)) (u : ℕ → ℝ) (zs : ℕ → ℕ → ℝ)
    (sidx : ℕ → ℕ) (ds : DistState) : DistState :=
  let idm : ℕ → ℕ → ℝ := fun p q => if p = q then 1 else 0
  let d_center : ℕ → ℝ := fun j => accum (fun i => u i * zs (sidx i) j) lam
  let cov_grad : ℕ → ℕ → ℝ := fun p q =>
    accum (fun i => u i * (zs (sidx i) p * zs (sidx i) q - idm p q)) lam
  let cov_trace : ℝ := ∑ j in Finset.range d, cov_grad j j
  let cov_grad2 : ℕ → ℕ → ℝ := fun p q => cov_grad p q - cov_trace / (d : ℝ) * idm p q
  let d_A : ℕ → ℕ → ℝ := fun p q =>
    0.5 * (eta_sigma * cov_trace / (d : ℝ) * idm p q + eta_b * cov_grad2 p q)
  { meanSize := d
    sigma := ds.sigma * Real.exp (eta_sigma / 2 * cov_trace / (d : ℝ))
    mean := fun j => ds.mean j + eta_mu * mulVec d ds.A d_center j
    A := fun p q => ∑ k in Finset.range d, ds.A p k * mexp d_A k q }

/-- End-of-body bookkeeping when no exit condition fired: the log line of
step 2bis (lines 333-354) is appended when
`m_verbosity > 0 && (gen % m_verbosity == 1 || m_verbosity == 1)`, the
population is sorted and the distribution updated, and the generation
counter advances. -/
def contState (ctx : LoopCtx) (s : LoopState) : LoopState :=
  let popNew := samplePop ctx s
  let fe' := s.fe + ctx.lam
  let line := (s.gen, fe', getF popNew (bestIdx popNew), dxNorm ctx s, deltaF popNew, s.ds.sigma)
  let log' := if 0 < ctx.verbosity ∧ (s.gen % ctx.verbosity = 1 ∨ ctx.verbosity = 1) then
      s.log ++ [line]
    else s.log
  let sidx : ℕ → ℕ := fun i => (sortIdx popNew ctx.lam).getD i 0
  { gen := s.gen + 1
    pop := popNew
    ds := updateDist ctx.d ctx.lam ctx.eta_mu ctx.eta_sigma ctx.eta_b ctx.mexp ctx.u
            (fun i k => ctx.zdraw s.gen i k) sidx s.ds
    log := log'
    fe := fe' }

/-- Which `return` statement of `evolve` produced the result. -/
inductive ExitKind where
  | err : ExitKind
  | zeroGen : ExitKind
  | xtol : ℕ → ExitKind
  | ftol : ℕ → ExitKind
  | budget : ExitKind
deriving DecidableEq

/-- Result of the generation loop. -/
structure LoopOut where
  pop : Population
  dist : DistState
  log : List (ℕ × ℕ × ℝ × ℝ × ℝ × ℝ)
  exit : ExitKind

/-- One generation either returns from `evolve` or continues. -/
inductive StepRes where
  | done : LoopOut → StepRes
  | next : LoopState → StepRes

/-- One iteration of the generation loop: sample and overwrite the
population (step 1, lines 291-311); on generations that are multiples of
10 check the two exit conditions (step 2, lines 313-332), returning the
freshly sampled population with the distribution memory and log as they
stand; otherwise log if required and update the distribution
(steps 2bis-4). -/
def genStep (ctx : LoopCtx) (s : LoopState) : StepRes :=
  if s.gen % 10 = 0 then
    if dxNorm ctx s < ctx.m_xtol then
      .done ⟨samplePop ctx s, s.ds, s.log, .xtol s.gen⟩
    else if deltaF (samplePop ctx s) < ctx.m_ftol then
      .done ⟨samplePop ctx s, s.ds, s.log, .ftol s.gen⟩
    else .next (contState ctx s)
  else .next (contState ctx s)

/-- The loop `for (gen = 1u; gen <= m_gen; ++gen)`: the fuel is the
number of generations still to run; falling off the loop returns the
current population (line 382). -/
def genLoop (ctx : LoopCtx) : ℕ → LoopState → LoopOut
  | 0, s => ⟨s.pop, s.ds, s.log, .budget⟩
  | fuel + 1, s =>
    match genStep ctx s with
    | .done o => o
    | .next s' => genLoop ctx fuel s'

/-! ## The `evolve` entry point (lines 180-383) -/

/-- Outcome of one `evolve` call: the returned population (or the thrown
`std::invalid_argument` message), together with the values of the mutable
members `sigma`/`mean`/`A` and `m_log` after the call. -/
structure EvolveOutcome where
  res : Except String Population
  dist : DistState
  log : List (ℕ × ℕ × ℝ × ℝ × ℝ × ℝ)
  exit : ExitKind

/-- The loop context `evolve` assembles from its configuration, the
problem, the population size and the oracles: `N = (double)dim`, the
effective learning rates of lines 224-235, and the utilities of
lines 236-247. -/
def mkCtx (cfg : XnesConfig) (prob : Problem) (lam : ℕ)
    (mexp : (ℕ → ℕ → ℝ) → (ℕ → ℕ → ℝ))
    (zdraw udraw : ℕ → ℕ → ℕ → ℝ) : LoopCtx :=
  { d := prob.nx
    lam := lam
    lbv := prob.lbv
    ubv := prob.ubv
    fit := prob.fit
    m_xtol := cfg.m_xtol
    m_ftol := cfg.m_ftol
    verbosity := cfg.m_verbosity
    eta_mu := effEtaMu cfg.m_eta_mu
    eta_sigma := effEtaSigma cfg.m_eta_sigma (prob.nx : ℝ)
    eta_b := effEtaB cfg.m_eta_b (prob.nx : ℝ)
    u := fun i => utility lam i
    mexp := mexp
    zdraw := zdraw
    udraw := udraw }

/-- `xnes::evolve`.  The preamble checks (lines 196-207) throw on
nonlinear constraints, on multiple objectives, and on `lam < 4u`
(note: `< 4`, although the message and the documentation demand at least
5 individuals), leaving every mutable member untouched; a zero generation
budget returns the population unchanged (lines 208-211) before the log is
cleared (line 215); otherwise the log is cleared, the distribution memory
is reset or retained (lines 248-267) with the best individual as the new
mean, and the generation loop runs. -/
def evolve (cfg : XnesConfig) (prob : Problem)
    (mexp : (ℕ → ℕ → ℝ) → (ℕ → ℕ → ℝ)) (zdraw udraw : ℕ → ℕ → ℕ → ℝ)
    (st : DistState) (log0 : List (ℕ × ℕ × ℝ × ℝ × ℝ × ℝ))
    (pop : Population) : EvolveOutcome :=
  if prob.nc ≠ 0 then
    ⟨.error "Non linear constraints detected", st, log0, .err⟩
  else if prob.nf ≠ 1 then
    ⟨.error "Multiple objectives detected", st, log0, .err⟩
  else if pop.size < 4 then
    ⟨.error "needs at least 5 individuals in the population", st, log0, .err⟩
  else if cfg.m_gen = 0 then
    ⟨.ok pop, st, log0, .zeroGen⟩
  else
    let ctx := mkCtx cfg prob pop.size mexp zdraw udraw
    let ds1 := initDist prob.nx cfg prob.lbv prob.ubv (getX pop (bestIdx pop)) st
    let o := genLoop ctx cfg.m_gen ⟨1, pop, ds1, [], 0⟩
    ⟨.ok o.pop, o.dist, o.log, o.exit⟩

/-! ## The update as the specification states it -/

/-- Modelled from the spec, §4.4 "Natural Gradient Update": the same
update written with closed rank sums,
`d_center = Σ_i weights_i · z_i`,
`cov_grad = Σ_i weights_i · (z_i·z_iᵗ − I)` decomposed via
`trace = tr(cov_grad)` into `cov_grad − (trace/D)·I`,
`d_A = 0.5 · (eta_sigma · (trace/D) · I + eta_b · cov_grad)`, and then
`mean + eta_mu · A · d_center`, `A · matrix_exponential(d_A)` and
`sigma · exp((eta_sigma/2) · (trace/D))`. -/
def specNaturalGradientUpdate (d lam : ℕ) (eta_mu eta_sigma eta_b : ℝ)
    (mexp : (ℕ → ℕ → ℝ) → (ℕ → ℕ → ℝ)) (u : ℕ → ℝ) (zs : ℕ → ℕ → ℝ)
    (sidx : ℕ → ℕ) (ds : DistState) : DistState :=
  let idm : ℕ → ℕ → ℝ := fun p q => if p = q then 1 else 0
  let d_center : ℕ → ℝ := fun j => ∑ i in Finset.range lam, u i * zs (sidx i) j
  let cov_grad : ℕ → ℕ → ℝ := fun p q =>
    ∑ i in Finset.range lam, u i * (zs (sidx i) p * zs (sidx i) q - idm p q)
  let tr : ℝ := ∑ j in Finset.range d, cov_grad j j
  let cov_grad2 : ℕ → ℕ → ℝ := fun p q => cov_grad p q - tr / (d : ℝ) * idm p q
  let d_A : ℕ → ℕ → ℝ := fun p q =>
    0.5 * (eta_sigma * (tr / (d : ℝ)) * idm p q + eta_b * cov_grad2 p q)
  { meanSize := d
    sigma := ds.sigma * Real.exp (eta_sigma / 2 * (tr / (d : ℝ)))
    mean := fun j => ds.mean j + eta_mu * mulVec d ds.A d_center j
    A := fun p q => ∑ k in Finset.range d, ds.A p k * mexp d_A k q }

/-! ## Auxiliary iteration and concrete instances used by the witnesses -/

/-- `k` consecutive loop-continuations. -/
def iterCont (ctx : LoopCtx) : ℕ → LoopState → LoopState
  | 0, s => s
  | k + 1, s => iterCont ctx k (contState ctx s)

/-- A matrix-exponential oracle for concrete runs (the identity map). -/
def mexpW : (ℕ → ℕ → ℝ) → (ℕ → ℕ → ℝ) := fun M => M

/-- Normal-draw oracle that always returns `0`. -/
def zdrawW : ℕ → ℕ → ℕ → ℝ := fun _ _ _ => 0

/-- Uniform-draw oracle that always returns `0`. -/
def udrawW : ℕ → ℕ → ℕ → ℝ := fun _ _ _ => 0

/-- Constructor state for the default `sigma0 = -1`. -/
def stW : DistState := initState (-1)

/-- A one-dimensional unconstrained single-objective problem on `[0,1]`
with constant fitness. -/
def probW : Problem := ⟨1, 0, 1, fun _ => 0, fun _ => 1, fun _ => 0⟩

/-- The same problem with one nonlinear constraint. -/
def probBad : Problem := ⟨1, 1, 1, fun _ => 0, fun _ => 1, fun _ => 0⟩

/-- A population of five identical individuals. -/
def popW : Population := ⟨List.replicate 5 (fun _ => 1 / 2, 0)⟩

/-- A population of four identical individuals. -/
def pop4 : Population := ⟨List.replicate 4 (fun _ => 1 / 2, 0)⟩

/-- Configuration: 1000 generations, every numeric parameter the auto
sentinel, both tolerances `1`, no memory, verbosity `0`. -/
def cfgW : XnesConfig := ⟨1000, -1, -1, -1, -1, 1, 1, false, 0⟩

/-- Same configuration with a zero generation budget. -/
def cfg0 : XnesConfig := ⟨0, -1, -1, -1, -1, 1, 1, false, 0⟩

/-- Same configuration with a one-generation budget. -/
def cfg1 : XnesConfig := ⟨1, -1, -1, -1, -1, 1, 1, false, 0⟩

/-- Same configuration with memory retention enabled. -/
def cfgM : XnesConfig := ⟨1, -1, -1, -1, -1, 1, 1, true, 0⟩

/-- The loop context `evolve cfgW probW ... popW` builds. -/
def ctxW : LoopCtx := mkCtx cfgW probW 5 mexpW zdrawW udrawW

/-- The loop state `evolve cfgW probW ... popW` enters the loop with. -/
def sW1 : LoopState :=
  ⟨1, popW, initDist 1 cfgW probW.lbv probW.ubv (getX popW (bestIdx popW)) stW, [], 0⟩

/-- A nonempty log left over from a hypothetical earlier call. -/
def logW : List (ℕ × ℕ × ℝ × ℝ × ℝ × ℝ) := [(1, 5, 0, 0, 0, 0)]

/-- A concrete best decision vector. -/
def bxW : ℕ → ℝ := fun _ => 1 / 2

/-! ## Utility-weight lemmas -/

/-- Every raw weight is nonnegative. -/
theorem rawWeight_nonneg (lam i : ℕ) : 0 ≤ rawWeight lam i := le_max_left 0 _

/-- The rank-0 raw weight is strictly positive for a nonempty population. -/
theorem rawWeight_zero_pos (lam : ℕ) (h : 1 ≤ lam) : 0 < rawWeight lam 0 := by
  have h1 : (1 : ℝ) < (lam : ℝ) / 2 + 1 := by
    have : (1 : ℝ) ≤ (lam : ℝ) := by exact_mod_cast h
    linarith
  have hlog : 0 < Real.log ((lam : ℝ) / 2 + 1) := Real.log_pos h1
  unfold rawWeight
  simp only [Nat.cast_zero, zero_add, Real.log_one, sub_zero]
  exact lt_max_of_lt_right hlog

/-- The normalising sum of raw weights is strictly positive. -/
theorem weightSum_pos (lam : ℕ) (h : 1 ≤ lam) : 0 < weightSum lam :=
  Finset.sum_pos' (fun i _ => rawWeight_nonneg lam i)
    ⟨0, Finset.mem_range.2 h, rawWeight_zero_pos lam h⟩

/-- The normalised utilities sum to zero exactly, for any nonempty
population. -/
theorem utility_sum_eq_zero (lam : ℕ) (h : 1 ≤ lam) :
    ∑ i in Finset.range lam, utility lam i = 0 := by
  have hS : weightSum lam ≠ 0 := ne_of_gt (weightSum_pos lam h)
  have hlam : (lam : ℝ) ≠ 0 := ne_of_gt (by exact_mod_cast h)
  unfold utility
  rw [Finset.sum_sub_distrib, ← Finset.sum_div,
    show ∑ i in Finset.range lam, rawWeight lam i = weightSum lam from rfl,
    div_self hS, Finset.sum_const, Finset.card_range, nsmul_eq_mul,
    mul_one_div, div_self hlam, sub_self]

/-- C7: for every population size `lam ≥ 5`, the utility weights computed
as `w_i = max(0, ln(lam/2 + 1) - ln(i+1))` and normalised as
`u_i = w_i / sum(w) - 1/lam` sum to zero (exactly, in the real-number
model; the floating-point code realises this up to rounding error). -/
theorem C7_utilities_sum_to_zero (lam : ℕ) (h : 5 ≤ lam) :
    ∑ i in Finset.range lam, utility lam i = 0 :=
  utility_sum_eq_zero lam (by omega)

/-- Witness for C7 at `lam = 5`. -/
theorem C7_utilities_sum_to_zero_witness :
    5 ≤ 5 ∧ ∑ i in Finset.range 5, utility 5 i = 0 :=
  ⟨le_refl 5, C7_utilities_sum_to_zero 5 (le_refl 5)⟩

/-- C1: refuted by the code — the conditions of lines 226-235 are
assignments (`if (eta_mu = -1)`), so the natural-gradient update always
uses `eta_mu = 1` and the derived `eta_sigma`/`eta_b`, whatever fixed
values in `(0,1]` were constructed; e.g. a constructed `eta_mu = 1/2` is
replaced by `1`, and the loop context `evolve` builds uses exactly these
effective rates. -/
theorem C1_fixed_rates_discarded :
    effEtaMu (1 / 2) = 1 ∧ (1 : ℝ) ≠ 1 / 2
  ∧ (∀ m N : ℝ, effEtaSigma m N = commonDefault N ∧ effEtaB m N = commonDefault N)
  ∧ (∀ cfg prob lam mexp zdraw udraw,
      (mkCtx cfg prob lam mexp zdraw udraw).eta_mu = effEtaMu cfg.m_eta_mu
    ∧ (mkCtx cfg prob lam mexp zdraw udraw).eta_sigma
        = effEtaSigma cfg.m_eta_sigma (prob.nx : ℝ)
    ∧ (mkCtx cfg prob lam mexp zdraw udraw).eta_b
        = effEtaB cfg.m_eta_b (prob.nx : ℝ)) :=
  ⟨rfl, by norm_num, fun _ _ => ⟨rfl, rfl⟩, fun _ _ _ _ _ _ => ⟨rfl, rfl, rfl⟩⟩

/-- Witness for C1 at the concrete constructed rate `1/2` and dimension 2. -/
theorem C1_fixed_rates_discarded_witness :
    effEtaMu (1 / 2) = 1 ∧ effEtaSigma (1 / 2) 2 = commonDefault 2 :=
  ⟨C1_fixed_rates_discarded.1, (C1_fixed_rates_discarded.2.2.1 (1 / 2) 2).1⟩

/-- C9: a zero generation budget returns the input population unchanged
whenever the call returns at all. -/
theorem C9_zero_budget_noop (cfg : XnesConfig) (prob : Problem)
    (mexp : (ℕ → ℕ → ℝ) → (ℕ → ℕ → ℝ)) (zdraw udraw : ℕ → ℕ → ℕ → ℝ)
    (st : DistState) (log0 : List (ℕ × ℕ × ℝ × ℝ × ℝ × ℝ))
    (pop p : Population) (hgen : cfg.m_gen = 0)
    (hok : (evolve cfg prob mexp zdraw udraw st log0 pop).res = .ok p) :
    p = pop := by
  unfold evolve at hok
  split_ifs at hok
  simp_all

/-- Witness for C9 on a concrete zero-budget configuration. -/
theorem C9_zero_budget_noop_witness :
    cfg0.m_gen = 0
  ∧ (evolve cfg0 probW mexpW zdrawW udrawW stW logW popW).res = .ok popW
  ∧ popW = popW := by
  have hok : (evolve cfg0 probW mexpW zdrawW udrawW stW logW popW).res = .ok popW := rfl
  exact ⟨rfl, hok,
    C9_zero_budget_noop cfg0 probW mexpW zdrawW udrawW stW logW popW popW rfl hok⟩

/-- C2: the three preamble checks leave every mutable member untouched
when they throw — but the population-size check of line 204 reads
`lam < 4u`, so a population of exactly 4 individuals (which the claim,
the error message and the documentation all say must raise) sails through
and the call proceeds to evolve. -/
theorem C2_precondition_gap (cfg : XnesConfig) (prob : Problem)
    (mexp : (ℕ → ℕ → ℝ) → (ℕ → ℕ → ℝ)) (zdraw udraw : ℕ → ℕ → ℕ → ℝ)
    (st : DistState) (log0 : List (ℕ × ℕ × ℝ × ℝ × ℝ × ℝ)) (pop : Population) :
    ((prob.nc ≠ 0 ∨ prob.nf ≠ 1 ∨ pop.size < 4) →
        (∃ e, (evolve cfg prob mexp zdraw udraw st log0 pop).res = .error e)
      ∧ (evolve cfg prob mexp zdraw udraw st log0 pop).dist = st
      ∧ (evolve cfg prob mexp zdraw udraw st log0 pop).log = log0)
  ∧ (prob.nc = 0 → prob.nf = 1 → pop.size = 4 →
      ∃ p, (evolve cfg prob mexp zdraw udraw st log0 pop).res = .ok p) := by
  constructor
  · intro h
    unfold evolve
    split_ifs with h1 h2 h3 h4
    · exact ⟨⟨_, rfl⟩, rfl, rfl⟩
    · exact ⟨⟨_, rfl⟩, rfl, rfl⟩
    · exact ⟨⟨_, rfl⟩, rfl, rfl⟩
    · rcases h with h | h | h <;> simp_all
    · rcases h with h | h | h <;> simp_all
  · intro hnc hnf hs
    unfold evolve
    rw [if_neg (by simp [hnc]), if_neg (by simp [hnf]), if_neg (by omega)]
    split_ifs with h4
    · exact ⟨pop, rfl⟩
    · exact ⟨_, rfl⟩

/-- Witness for C2: a constrained problem is rejected with the state
untouched, while a 4-individual population on a clean problem is not
rejected. -/
theorem C2_precondition_gap_witness :
    (probBad.nc ≠ 0 ∨ probBad.nf ≠ 1 ∨ popW.size < 4)
  ∧ (∃ e, (evolve cfgW probBad mexpW zdrawW udrawW stW logW popW).res = .error e)
  ∧ (probW.nc = 0 ∧ probW.nf = 1 ∧ pop4.size = 4)
  ∧ (∃ p, (evolve cfgW probW mexpW zdrawW udrawW stW logW pop4).res = .ok p) := by
  have h1 : probBad.nc ≠ 0 ∨ probBad.nf ≠ 1 ∨ popW.size < 4 :=
    Or.inl (by simp [probBad])
  exact ⟨h1,
    ((C2_precondition_gap cfgW probBad mexpW zdrawW udrawW stW logW popW).1 h1).1,
    ⟨rfl, rfl, rfl⟩,
    (C2_precondition_gap cfgW probW mexpW zdrawW udrawW stW logW pop4).2 rfl rfl rfl⟩

/-- C5: the distribution state is reinitialised (sigma from `sigma0` with
the auto sentinel meaning `1`, `A` diagonal with entries
`max(ub_j - lb_j, 1e-6) * sigma`, mean from the best individual) exactly
when memory is disabled or the stored dimension differs; otherwise it is
retained unchanged. -/
theorem C5_reset_or_retain (d : ℕ) (cfg : XnesConfig) (lbv ubv bx : ℕ → ℝ)
    (st : DistState) :
    (st.meanSize = d → cfg.m_memory = true → initDist d cfg lbv ubv bx st = st)
  ∧ ((st.meanSize ≠ d ∨ cfg.m_memory = false) →
        (initDist d cfg lbv ubv bx st).meanSize = d
      ∧ (initDist d cfg lbv ubv bx st).sigma =
          (if cfg.m_sigma0 = -1 then 1 else cfg.m_sigma0)
      ∧ (∀ i, i < d → (initDist d cfg lbv ubv bx st).mean i = bx i)
      ∧ ∀ i j, i < d → j < d →
          (initDist d cfg lbv ubv bx st).A i j =
            if i = j then
              max (ubv i - lbv i) 1e-6 *
                (if cfg.m_sigma0 = -1 then 1 else cfg.m_sigma0)
            else 0) := by
  constructor
  · intro h1 h2
    have hcond : ¬(st.meanSize ≠ d ∨ cfg.m_memory = false) := by
      push_neg
      exact ⟨h1, by simp [h2]⟩
    unfold initDist
    rw [if_neg hcond]
  · intro h
    unfold initDist
    rw [if_pos h]
    refine ⟨rfl, rfl, fun i _ => rfl, fun i j hi hj => ?_⟩
    by_cases hij : i = j
    · subst hij
      simp [hi]
    · simp [hij]

/-- Witness for C5: retention on a matching dimension, and a full
reinitialisation. -/
theorem C5_reset_or_retain_witness :
    (stW.meanSize = 1 ∧ cfgM.m_memory = true
      ∧ initDist 1 cfgM probW.lbv probW.ubv bxW stW = stW)
  ∧ (cfgW.m_memory = false
      ∧ (initDist 1 cfgW probW.lbv probW.ubv bxW stW).meanSize = 1
      ∧ (initDist 1 cfgW probW.lbv probW.ubv bxW stW).sigma =
          (if cfgW.m_sigma0 = -1 then 1 else cfgW.m_sigma0)
      ∧ (initDist 1 cfgW probW.lbv probW.ubv bxW stW).mean 0 = bxW 0
      ∧ (initDist 1 cfgW probW.lbv probW.ubv bxW stW).A 0 0 =
          if 0 = 0 then
            max (probW.ubv 0 - probW.lbv 0) 1e-6 *
              (if cfgW.m_sigma0 = -1 then 1 else cfgW.m_sigma0)
          else 0) := by
  have h1 := (C5_reset_or_retain 1 cfgM probW.lbv probW.ubv bxW stW).1 rfl rfl
  have h2 := (C5_reset_or_retain 1 cfgW probW.lbv probW.ubv bxW stW).2 (Or.inr rfl)
  exact ⟨⟨rfl, rfl, h1⟩, rfl, h2.1, h2.2.1, h2.2.2.1 0 (by omega),
    h2.2.2.2 0 0 (by omega) (by omega)⟩

/-- C10: the constructor installs `mean = Zero(1)`, `A = Identity(1,1)`,
`sigma = m_sigma0` (possibly the sentinel `-1`); with memory retention
enabled on a 1-dimensional problem the first evolve call keeps exactly
this state — including a negative `sigma = -1` when `sigma0` was left at
the sentinel. -/
theorem C10_constructor_state (s0 : ℝ) (cfg : XnesConfig) (lbv ubv bx : ℕ → ℝ) :
    (initState s0).meanSize = 1
  ∧ (initState s0).sigma = s0
  ∧ (∀ i, (initState s0).mean i = 0)
  ∧ (initState s0).A 0 0 = 1
  ∧ (cfg.m_memory = true →
      initDist 1 cfg lbv ubv bx (initState cfg.m_sigma0) = initState cfg.m_sigma0)
  ∧ (cfg.m_sigma0 = -1 → (initState cfg.m_sigma0).sigma < 0) := by
  refine ⟨rfl, rfl, fun _ => rfl, rfl, fun hmem => ?_, fun hs => ?_⟩
  · have hcond : ¬((initState cfg.m_sigma0).meanSize ≠ 1 ∨ cfg.m_memory = false) := by
      push_neg
      exact ⟨rfl, by simp [hmem]⟩
    unfold initDist
    rw [if_neg hcond]
  · show cfg.m_sigma0 < 0
    rw [hs]
    norm_num

/-- Fixed-point description of one repaired coordinate. -/
theorem repairedX_eq (ctx : LoopCtx) (s : LoopState) (i j : ℕ) :
    repairedX ctx s i j =
      if sampleX ctx s i j < ctx.lbv j ∨ ctx.ubv j < sampleX ctx s i j then
        ctx.lbv j + ctx.udraw s.gen i j * (ctx.ubv j - ctx.lbv j)
      else sampleX ctx s i j := rfl

/-- C6: after bound repair every coordinate of a sampled candidate lies
in `[lb_j, ub_j]` (out-of-bounds coordinates are overwritten with
`lb_j + r·(ub_j − lb_j)`, `r` uniform in `[0,1)`); the repaired candidate
and its re-evaluated fitness are what is written into the population; and
the distribution update receives the raw noise draws, never the repaired
values. -/
theorem C6_bound_repair (ctx : LoopCtx) (s : LoopState) :
    (∀ i j, ctx.lbv j ≤ ctx.ubv j → 0 ≤ ctx.udraw s.gen i j →
        ctx.udraw s.gen i j < 1 →
        ctx.lbv j ≤ repairedX ctx s i j ∧ repairedX ctx s i j ≤ ctx.ubv j)
  ∧ (∀ i, i < ctx.lam →
        getX (samplePop ctx s) i = repairedX ctx s i
      ∧ getF (samplePop ctx s) i = ctx.fit (repairedX ctx s i))
  ∧ (contState ctx s).ds =
      updateDist ctx.d ctx.lam ctx.eta_mu ctx.eta_sigma ctx.eta_b ctx.mexp ctx.u
        (fun i k => ctx.zdraw s.gen i k)
        (fun i => (sortIdx (samplePop ctx s) ctx.lam).getD i 0) s.ds := by
  refine ⟨fun i j hb hu0 hu1 => ?_, fun i hi => ?_, rfl⟩
  · rw [repairedX_eq]
    split_ifs with hout
    · constructor
      · nlinarith [mul_nonneg hu0 (sub_nonneg.2 hb)]
      · have h1 : ctx.udraw s.gen i j * (ctx.ubv j - ctx.lbv j)
            ≤ 1 * (ctx.ubv j - ctx.lbv j) :=
          mul_le_mul_of_nonneg_right (le_of_lt hu1) (sub_nonneg.2 hb)
        linarith
    · push_neg at hout
      exact hout
  · constructor <;>
      simp [getX, getF, samplePop, List.getD_eq_getElem?_getD, List.getElem?_map,
        List.getElem?_range, hi]

/-- Witness for C6 on the concrete context of `evolve cfgW probW ... popW`. -/
theorem C6_bound_repair_witness :
    (ctxW.lbv 0 ≤ ctxW.ubv 0 ∧ 0 ≤ ctxW.udraw sW1.gen 0 0 ∧ ctxW.udraw sW1.gen 0 0 < 1)
  ∧ (ctxW.lbv 0 ≤ repairedX ctxW sW1 0 0 ∧ repairedX ctxW sW1 0 0 ≤ ctxW.ubv 0)
  ∧ (0 < ctxW.lam ∧ getX (samplePop ctxW sW1) 0 = repairedX ctxW sW1 0) := by
  have h := C6_bound_repair ctxW sW1
  have hb : ctxW.lbv 0 ≤ ctxW.ubv 0 := by norm_num [ctxW, mkCtx, probW]
  have hu0 : (0 : ℝ) ≤ ctxW.udraw sW1.gen 0 0 := le_refl 0
  have hu1 : ctxW.udraw sW1.gen 0 0 < 1 := by norm_num [ctxW, mkCtx, udrawW]
  have hlam : 0 < ctxW.lam := by norm_num [ctxW, mkCtx]
  exact ⟨⟨hb, hu0, hu1⟩, h.1 0 0 hb hu0 hu1, hlam, (h.2.1 0 hlam).1⟩

/-- Left fold of successive additions over `List.range' s n`. -/
theorem foldl_add_range' (f : ℕ → ℝ) : ∀ (n s : ℕ) (c : ℝ),
    (List.range' s n).foldl (fun a i => a + f i) c
      = c + ∑ i in Finset.range n, f (s + i) := by
  intro n
  induction n with
  | zero => intro s c; simp
  | succ n ih =>
      intro s c
      rw [List.range'_succ, List.foldl_cons, ih (s + 1) (c + f s),
        Finset.sum_range_succ']
      have hc : ∑ i in Finset.range n, f (s + 1 + i)
          = ∑ i in Finset.range n, f (s + (i + 1)) :=
        Finset.sum_congr rfl fun i _ => by rw [show s + 1 + i = s + (i + 1) by omega]
      rw [hc, Nat.add_zero]
      ring

/-- The accumulation loop of the source equals the closed rank sum for a
nonempty population. -/
theorem accum_eq_sum (g : ℕ → ℝ) (lam : ℕ) (h : 1 ≤ lam) :
    accum g lam = ∑ i in Finset.range lam, g i := by
  obtain ⟨m, rfl⟩ : ∃ m, lam = m + 1 := ⟨lam - 1, by omega⟩
  unfold accum
  rw [Nat.add_sub_cancel, foldl_add_range' g m 1 (g 0), Finset.sum_range_succ']
  have hc : ∑ i in Finset.range m, g (1 + i) = ∑ i in Finset.range m, g (i + 1) :=
    Finset.sum_congr rfl fun i _ => by rw [Nat.add_comm]
  rw [hc]
  ring

/-- C4: the distribution update of lines 362-377 computes exactly the
natural-gradient step the specification states: the accumulated
`d_center` and `cov_grad` are the rank sums, the trace is extracted and
removed, `d_A = 0.5(eta_sigma·(tr/D)·I + eta_b·cov_grad)`, and then
`mean + eta_mu·A·d_center`, `A·exp(d_A)` and
`sigma·exp((eta_sigma/2)·(tr/D))`. -/
theorem C4_update_matches_spec (d lam : ℕ) (eta_mu eta_sigma eta_b : ℝ)
    (mexp : (ℕ → ℕ → ℝ) → (ℕ → ℕ → ℝ)) (u : ℕ → ℝ) (zs : ℕ → ℕ → ℝ)
    (sidx : ℕ → ℕ) (ds : DistState) (h : 1 ≤ lam) :
    updateDist d lam eta_mu eta_sigma eta_b mexp u zs sidx ds =
    specNaturalGradientUpdate d lam eta_mu eta_sigma eta_b mexp u zs sidx ds := by
  unfold updateDist specNaturalGradientUpdate
  simp only [accum_eq_sum _ _ h, mul_div_assoc]

/-- Witness for C4 at a concrete dimension, population size and state. -/
theorem C4_update_matches_spec_witness :
    1 ≤ 5 ∧ updateDist 1 5 1 1 1 mexpW (fun _ => 0) (fun _ _ => 0) (fun i => i) stW
      = specNaturalGradientUpdate 1 5 1 1 1 mexpW (fun _ => 0) (fun _ _ => 0)
          (fun i => i) stW :=
  ⟨by omega, C4_update_matches_spec 1 5 1 1 1 mexpW (fun _ => 0) (fun _ _ => 0)
    (fun i => i) stW (by omega)⟩

/-- Witness for C10 on a concrete memory-enabled configuration with the
sentinel `sigma0`. -/
theorem C10_constructor_state_witness :
    cfgM.m_memory = true ∧ cfgM.m_sigma0 = -1
  ∧ initDist 1 cfgM probW.lbv probW.ubv bxW (initState cfgM.m_sigma0)
      = initState cfgM.m_sigma0
  ∧ (initState cfgM.m_sigma0).sigma < 0 := by
  have h := C10_constructor_state cfgM.m_sigma0 cfgM probW.lbv probW.ubv bxW
  exact ⟨rfl, rfl, h.2.2.2.2.1 rfl, h.2.2.2.2.2 rfl⟩

/-! ## Control-flow lemmas about the generation loop -/

/-- Unfolding of the loop at zero fuel. -/
theorem genLoop_zero (ctx : LoopCtx) (s : LoopState) :
    genLoop ctx 0 s = ⟨s.pop, s.ds, s.log, .budget⟩ := rfl

/-- Unfolding of the loop at positive fuel. -/
theorem genLoop_succ (ctx : LoopCtx) (n : ℕ) (s : LoopState) :
    genLoop ctx (n + 1) s =
      match genStep ctx s with
      | .done o => o
      | .next s' => genLoop ctx n s' := rfl

/-- A continuing step always continues into `contState`. -/
theorem genStep_next_eq (ctx : LoopCtx) (s : LoopState) (s' : LoopState)
    (h : genStep ctx s = .next s') : s' = contState ctx s := by
  unfold genStep at h
  split_ifs at h <;> simp_all

/-- Away from multiples of 10 the loop body never exits. -/
theorem genStep_next_of_mod (ctx : LoopCtx) (s : LoopState)
    (h : s.gen % 10 ≠ 0) : genStep ctx s = .next (contState ctx s) := by
  unfold genStep
  rw [if_neg h]

/-- An exiting step happens only at a multiple of 10, returns the log
untouched and records the generation at which it fired. -/
theorem genStep_done_spec (ctx : LoopCtx) (s : LoopState) (o : LoopOut)
    (h : genStep ctx s = .done o) :
    s.gen % 10 = 0 ∧ o.log = s.log
  ∧ (o.exit = .xtol s.gen ∨ o.exit = .ftol s.gen) := by
  unfold genStep at h
  split_ifs at h with h1 h2 h3
  · injection h with h4
    subst h4
    exact ⟨h1, rfl, Or.inl rfl⟩
  · injection h with h4
    subst h4
    exact ⟨h1, rfl, Or.inr rfl⟩

/-- With verbosity 0 the continuation never appends to the log. -/
theorem contState_log_of_verb0 (ctx : LoopCtx) (s : LoopState)
    (h : ctx.verbosity = 0) : (contState ctx s).log = s.log := by
  simp [contState, h]

/-- With verbosity 0 the whole loop leaves the log exactly as it started. -/
theorem genLoop_log_of_verb0 (ctx : LoopCtx) (h : ctx.verbosity = 0) :
    ∀ (fuel : ℕ) (s : LoopState), (genLoop ctx fuel s).log = s.log := by
  intro fuel
  induction fuel with
  | zero => intro s; rfl
  | succ n ih =>
      intro s
      rw [genLoop_succ]
      cases hstep : genStep ctx s with
      | done o => exact (genStep_done_spec ctx s o hstep).2.1
      | next s' =>
          show (genLoop ctx n s').log = s.log
          rw [ih s', genStep_next_eq ctx s s' hstep]
          exact contState_log_of_verb0 ctx s h

/-- Any early exit of the loop fires at a multiple of 10 inside the
remaining generation window. -/
theorem genLoop_exit_bounds (ctx : LoopCtx) :
    ∀ (fuel : ℕ) (s : LoopState) (g : ℕ),
      ((genLoop ctx fuel s).exit = .xtol g ∨ (genLoop ctx fuel s).exit = .ftol g) →
      g % 10 = 0 ∧ s.gen ≤ g ∧ g < s.gen + fuel := by
  intro fuel
  induction fuel with
  | zero =>
      intro s g h
      rcases h with h | h <;> simp [genLoop_zero] at h
  | succ n ih =>
      intro s g h
      rw [genLoop_succ] at h
      cases hstep : genStep ctx s with
      | done o =>
          rw [hstep] at h
          replace h : o.exit = .xtol g ∨ o.exit = .ftol g := h
          obtain ⟨h10, -, hex⟩ := genStep_done_spec ctx s o hstep
          have hg : g = s.gen := by
            rcases h with h | h <;> rcases hex with hx | hx <;> rw [h] at hx <;>
              simp_all
          exact ⟨hg ▸ h10, by omega, by omega⟩
      | next s' =>
          rw [hstep] at h
          replace h : (genLoop ctx n s').exit = .xtol g
              ∨ (genLoop ctx n s').exit = .ftol g := h
          have hb := ih s' g h
          have hgen : s'.gen = s.gen + 1 := by
            rw [genStep_next_eq ctx s s' hstep]
            rfl
          refine ⟨hb.1, by omega, by omega⟩

/-- Loop unfolding along a continuing step. -/
theorem genLoop_next_eq (ctx : LoopCtx) (s s' : LoopState) (n : ℕ)
    (h : genStep ctx s = .next s') :
    genLoop ctx (n + 1) s = genLoop ctx n s' := by
  rw [genLoop_succ, h]

/-- Loop unfolding along an exiting step. -/
theorem genLoop_done_eq (ctx : LoopCtx) (s : LoopState) (o : LoopOut) (n : ℕ)
    (h : genStep ctx s = .done o) : genLoop ctx (n + 1) s = o := by
  rw [genLoop_succ, h]

/-- The generation counter after `k` continuations. -/
theorem iterCont_gen (ctx : LoopCtx) :
    ∀ (k : ℕ) (s : LoopState), (iterCont ctx k s).gen = s.gen + k := by
  intro k
  induction k with
  | zero => intro s; rfl
  | succ n ih =>
      intro s
      rw [show iterCont ctx (n + 1) s = iterCont ctx n (contState ctx s) from rfl,
        ih (contState ctx s)]
      show s.gen + 1 + n = s.gen + (n + 1)
      omega

/-- As long as no generation in the window is a multiple of 10 the loop
just continues. -/
theorem genLoop_iter (ctx : LoopCtx) :
    ∀ (k n : ℕ) (s : LoopState), (∀ m, m < k → (s.gen + m) % 10 ≠ 0) →
      genLoop ctx (n + k) s = genLoop ctx n (iterCont ctx k s) := by
  intro k
  induction k with
  | zero => intro n s _; rfl
  | succ k ih =>
      intro n s hm
      have h0 : s.gen % 10 ≠ 0 := by
        have := hm 0 (by omega)
        simpa using this
      have h1 : genLoop ctx (n + (k + 1)) s = genLoop ctx (n + k) (contState ctx s) := by
        rw [show n + (k + 1) = n + k + 1 by omega]
        exact genLoop_next_eq ctx s (contState ctx s) (n + k)
          (genStep_next_of_mod ctx s h0)
      have hm2 : ∀ m, m < k → ((contState ctx s).gen + m) % 10 ≠ 0 := by
        intro m hmk
        have hx := hm (m + 1) (by omega)
        have hgen : (contState ctx s).gen = s.gen + 1 := rfl
        rw [hgen, show s.gen + 1 + m = s.gen + (m + 1) by omega]
        exact hx
      rw [h1, ih n (contState ctx s) hm2]
      rfl

/-- C3: the log of a completed call is rebuilt from scratch — the whole
outcome is independent of whatever the log held before (the clear of
line 215) — and a call with verbosity 0 ends with an empty log; only the
zero-budget early return of lines 209-211 (which can never have produced
log entries) and a throwing call leave the log as it was. -/
theorem C3_log_semantics (cfg : XnesConfig) (prob : Problem)
    (mexp : (ℕ → ℕ → ℝ) → (ℕ → ℕ → ℝ)) (zdraw udraw : ℕ → ℕ → ℕ → ℝ)
    (st : DistState) (log0 : List (ℕ × ℕ × ℝ × ℝ × ℝ × ℝ))
    (pop p : Population) :
    ((evolve cfg prob mexp zdraw udraw st log0 pop).res = .ok p → cfg.m_gen ≠ 0 →
        evolve cfg prob mexp zdraw udraw st log0 pop
          = evolve cfg prob mexp zdraw udraw st [] pop)
  ∧ ((evolve cfg prob mexp zdraw udraw st log0 pop).res = .ok p → cfg.m_gen ≠ 0 →
        cfg.m_verbosity = 0 →
        (evolve cfg prob mexp zdraw udraw st log0 pop).log = [])
  ∧ (cfg.m_gen = 0 → (evolve cfg prob mexp zdraw udraw st log0 pop).log = log0) := by
  refine ⟨fun hok hgen => ?_, fun hok hgen hv => ?_, fun hgen => ?_⟩
  · unfold evolve at hok ⊢
    split_ifs at hok ⊢ with h1 h2 h3
    rfl
  · unfold evolve at hok ⊢
    split_ifs at hok ⊢ with h1 h2 h3
    exact genLoop_log_of_verb0 _ (by simp [mkCtx, hv]) _ _
  · unfold evolve
    split_ifs with h1 h2 h3 <;> rfl

/-- Witness for C3: a one-generation silent call forgets a stale log and
ends empty; a zero-budget call leaves the log alone. -/
theorem C3_log_semantics_witness :
    evolve cfg1 probW mexpW zdrawW udrawW stW logW popW
      = evolve cfg1 probW mexpW zdrawW udrawW stW [] popW
  ∧ (evolve cfg1 probW mexpW zdrawW udrawW stW logW popW).log = []
  ∧ (evolve cfg0 probW mexpW zdrawW udrawW stW logW popW).log = logW := by
  have h := C3_log_semantics cfg1 probW mexpW zdrawW udrawW stW logW popW
    ((genLoop (mkCtx cfg1 probW 5 mexpW zdrawW udrawW) 1
      ⟨1, popW, initDist 1 cfg1 probW.lbv probW.ubv (getX popW (bestIdx popW)) stW,
        [], 0⟩).pop)
  have hok : (evolve cfg1 probW mexpW zdrawW udrawW stW logW popW).res
      = .ok ((genLoop (mkCtx cfg1 probW 5 mexpW zdrawW udrawW) 1
          ⟨1, popW, initDist 1 cfg1 probW.lbv probW.ubv (getX popW (bestIdx popW)) stW,
            [], 0⟩).pop) := rfl
  have hg : cfg1.m_gen ≠ 0 := by simp [cfg1]
  exact ⟨h.1 hok hg, h.2.1 hok hg rfl,
    (C3_log_semantics cfg0 probW mexpW zdrawW udrawW stW logW popW popW).2.2 rfl⟩

/-- C8: early returns of `evolve` happen only at generations that are
multiples of 10 within the budget, and the loop body exits early exactly
when the generation is a multiple of 10 and `(A*z[0]).norm() < m_xtol`
or the best-worst fitness gap is below `m_ftol`. -/
theorem C8_convergence_every_tenth :
    (∀ (cfg : XnesConfig) (prob : Problem)
        (mexp : (ℕ → ℕ → ℝ) → (ℕ → ℕ → ℝ)) (zdraw udraw : ℕ → ℕ → ℕ → ℝ)
        (st : DistState) (log0 : List (ℕ × ℕ × ℝ × ℝ × ℝ × ℝ))
        (pop : Population) (g : ℕ),
        ((evolve cfg prob mexp zdraw udraw st log0 pop).exit = .xtol g
          ∨ (evolve cfg prob mexp zdraw udraw st log0 pop).exit = .ftol g) →
        g % 10 = 0 ∧ 1 ≤ g ∧ g ≤ cfg.m_gen)
  ∧ (∀ (ctx : LoopCtx) (s : LoopState),
        (∃ o, genStep ctx s = .done o) ↔
          s.gen % 10 = 0 ∧ (dxNorm ctx s < ctx.m_xtol
            ∨ deltaF (samplePop ctx s) < ctx.m_ftol)) := by
  constructor
  · intro cfg prob mexp zdraw udraw st log0 pop g h
    unfold evolve at h
    split_ifs at h with h1 h2 h3 h4
    · rcases h with h | h <;> simp at h
    · rcases h with h | h <;> simp at h
    · rcases h with h | h <;> simp at h
    · rcases h with h | h <;> simp at h
    · replace h : (genLoop (mkCtx cfg prob pop.size mexp zdraw udraw) cfg.m_gen
          ⟨1, pop, initDist prob.nx cfg prob.lbv prob.ubv (getX pop (bestIdx pop)) st,
            [], 0⟩).exit = .xtol g
        ∨ (genLoop (mkCtx cfg prob pop.size mexp zdraw udraw) cfg.m_gen
          ⟨1, pop, initDist prob.nx cfg prob.lbv prob.ubv (getX pop (bestIdx pop)) st,
            [], 0⟩).exit = .ftol g := h
      have hb := genLoop_exit_bounds (mkCtx cfg prob pop.size mexp zdraw udraw)
        cfg.m_gen _ g h
      have hb2 : 1 ≤ g := hb.2.1
      have hb3 : g < 1 + cfg.m_gen := hb.2.2
      exact ⟨hb.1, hb2, by omega⟩
  · intro ctx s
    constructor
    · rintro ⟨o, ho⟩
      unfold genStep at ho
      split_ifs at ho with h1 h2 h3
      · exact ⟨h1, Or.inl h2⟩
      · exact ⟨h1, Or.inr h3⟩
    · rintro ⟨h10, hc⟩
      unfold genStep
      rw [if_pos h10]
      by_cases h2 : dxNorm ctx s < ctx.m_xtol
      · exact ⟨_, by rw [if_pos h2]⟩
      · rcases hc with hc | hc
        · exact absurd hc h2
        · exact ⟨_, by rw [if_neg h2, if_pos hc]⟩

/-- Witness for C8: a concrete run (all noise draws 0, `xtol = 1`,
budget 1000) continues through generations 1-9 and stops with the xtol
condition at generation 10. -/
theorem C8_convergence_every_tenth_witness :
    (evolve cfgW probW mexpW zdrawW udrawW stW [] popW).exit = ExitKind.xtol 10
  ∧ 10 % 10 = 0 ∧ 1 ≤ 10 ∧ 10 ≤ cfgW.m_gen := by
  have hnot : ∀ m, m < 9 → (sW1.gen + m) % 10 ≠ 0 := by
    intro m hm
    have hone : sW1.gen = 1 := rfl
    omega
  have hchain : genLoop ctxW 1000 sW1 = genLoop ctxW 991 (iterCont ctxW 9 sW1) := by
    have h := genLoop_iter ctxW 9 991 sW1 hnot
    rw [show (991 + 9 : ℕ) = 1000 from rfl] at h
    exact h
  have hgen10 : (iterCont ctxW 9 sW1).gen = 10 := by
    rw [iterCont_gen]
    rfl
  have hdx : dxNorm ctxW (iterCont ctxW 9 sW1) < ctxW.m_xtol := by
    have hz : ∀ k, ctxW.zdraw (iterCont ctxW 9 sW1).gen 0 k = 0 := fun _ => rfl
    unfold dxNorm mulVec
    simp only [hz, mul_zero, Finset.sum_const_zero, ne_eq, OfNat.ofNat_ne_zero,
      not_false_eq_true, zero_pow, Real.sqrt_zero]
    norm_num [ctxW, mkCtx, cfgW]
  have hstep : genStep ctxW (iterCont ctxW 9 sW1)
      = .done ⟨samplePop ctxW (iterCont ctxW 9 sW1), (iterCont ctxW 9 sW1).ds,
          (iterCont ctxW 9 sW1).log, .xtol (iterCont ctxW 9 sW1).gen⟩ := by
    unfold genStep
    rw [if_pos (by rw [hgen10]), if_pos hdx]
  have hdone : genLoop ctxW 991 (iterCont ctxW 9 sW1)
      = ⟨samplePop ctxW (iterCont ctxW 9 sW1), (iterCont ctxW 9 sW1).ds,
          (iterCont ctxW 9 sW1).log, .xtol (iterCont ctxW 9 sW1).gen⟩ := by
    rw [show (991 : ℕ) = 990 + 1 from rfl]
    exact genLoop_done_eq ctxW _ _ 990 hstep
  have hexit : (evolve cfgW probW mexpW zdrawW udrawW stW [] popW).exit
      = ExitKind.xtol 10 := by
    have he : (evolve cfgW probW mexpW zdrawW udrawW stW [] popW).exit
        = (genLoop ctxW 1000 sW1).exit := rfl
    rw [he, hchain, hdone]
    show ExitKind.xtol (iterCont ctxW 9 sW1).gen = ExitKind.xtol 10
    rw [hgen10]
  exact ⟨hexit, C8_convergence_every_tenth.1 cfgW probW mexpW zdrawW udrawW stW []
    popW 10 (Or.inl hexit)⟩

end

end Xnes
